import Mathlib

/-!
Shallow embedding of the MTA-STS policy parser/validator from
`QuerySts.go` (repository StrictMTATest).

Strings are modelled as `List Char` (the Go functions operate on ASCII
policy text, where Go's byte indexing coincides with character
indexing).  Go library primitives (`strings.HasPrefix`, `strings.Split`,
`strings.TrimSpace`, `strings.Index`) are embedded as executable Lean
functions below.  A Go runtime panic (index out of range on a slice or
string) is modelled by the value `none` of an `Option` result.
-/

set_option autoImplicit false

namespace StrictMTA

/-- Characters Go's `unicode.IsSpace` recognizes in the Latin-1 range
(space, tab, newline, vertical tab, form feed, carriage return, NEL,
NBSP). -/
def goIsSpace (c : Char) : Bool :=
  c = ' ' || c = '\t' || c = '\n' || c = '\x0b' || c = '\x0c' || c = '\r' ||
  c = '\x85' || c = '\xa0'

/-- Go `strings.TrimSpace`: drop leading and trailing whitespace. -/
def goTrimSpace (s : List Char) : List Char :=
  ((s.dropWhile goIsSpace).reverse.dropWhile goIsSpace).reverse

/-- Go `strings.HasPrefix s p`: `p` is a prefix of `s`. -/
def goStartsWith : List Char → List Char → Bool
  | _, [] => true
  | [], _ :: _ => false
  | c :: s, d :: p => if c = d then goStartsWith s p else false

/-- Go `strings.Split s sep` for a single-character separator: the
fields of `s` between occurrences of `sep`.  Always returns at least
one field. -/
def goSplit : List Char → Char → List (List Char)
  | [], _ => [[]]
  | c :: rest, sep =>
    if c = sep then [] :: goSplit rest sep
    else
      match goSplit rest sep with
      | [] => [[c]]
      | f :: fs => (c :: f) :: fs

/-- Go `strings.Index s c` for a single-character needle: index of the
first occurrence, `none` standing for Go's `-1`. -/
def goIndexOf : List Char → Char → Option Nat
  | [], _ => none
  | c :: rest, t => if c = t then some 0 else (goIndexOf rest t).map (· + 1)

/-- Abbreviation turning a Lean string literal into the `List Char` it
denotes. -/
def str (s : String) : List Char := s.data

/-- Embedding of `hasKey(rows, key)` from QuerySts.go: true when some
raw line has `key` as a prefix. -/
def hasKey : List (List Char) → List Char → Bool
  | [], _ => false
  | line :: rest, key =>
    if goStartsWith line key then true else hasKey rest key

/-- Embedding of `valueForKey(rows, key)` from QuerySts.go: the trimmed
`fields[1]` of the first line having `key` as raw prefix; `some []` (Go:
`""`) when no line matches; `none` models the Go panic when the matching
line has no `:` (so `fields` has length 1 and `fields[1]` is out of
range). -/
def valueForKey : List (List Char) → List Char → Option (List Char)
  | [], _ => some []
  | line :: rest, key =>
    if goStartsWith line key then
      match (goSplit line ':').get? 1 with
      | some f => some (goTrimSpace f)
      | none => none
    else valueForKey rest key

/-- The appended part of `valuesForKey`: trimmed `fields[1]` of every
line having `key` as raw prefix, in order; `none` models the Go panic on
a matching line without `:`. -/
def valuesForKeyAux : List (List Char) → List Char → Option (List (List Char))
  | [], _ => some []
  | line :: rest, key =>
    if goStartsWith line key then
      match (goSplit line ':').get? 1 with
      | some f =>
        match valuesForKeyAux rest key with
        | some vs => some (goTrimSpace f :: vs)
        | none => none
      | none => none
    else valuesForKeyAux rest key

/-- Embedding of `valuesForKey(rows, key)` from QuerySts.go.  The Go
code initializes `results := make([]string, 1, 4)`, so the result
carries one empty string before the appended values. -/
def valuesForKey (rows : List (List Char)) (key : List Char) :
    Option (List (List Char)) :=
  (valuesForKeyAux rows key).map (fun vs => [] :: vs)

/-- The key extracted from one line: trimmed `fields[0]` of the split on
`:` (total, since `strings.Split` always yields at least one field). -/
def extractedKey (line : List Char) : List Char :=
  goTrimSpace ((goSplit line ':').headD [])

/-- The appended part of `allKeys`: the nonempty extracted keys, in
document order. -/
def allKeysAux : List (List Char) → List (List Char)
  | [] => []
  | line :: rest =>
    if extractedKey line ≠ [] then extractedKey line :: allKeysAux rest
    else allKeysAux rest

/-- Embedding of `allKeys(rows)` from QuerySts.go.  The Go code
initializes `keys := make([]string, 1, 4)`, so the result carries one
empty string before the appended keys. -/
def allKeys (rows : List (List Char)) : List (List Char) :=
  [] :: allKeysAux rows

/-- One iteration of the loop in `mxHasMatch`: does declared pattern
`mx` match resolved host `mxHost`?  `none` models the Go panic in
`mxHost[i:]` when `mx` begins with `.` and `mxHost` has no `.` (then
`strings.Index` returns `-1` and the slice is out of range). -/
def mxMatchOne (mx mxHost : List Char) : Option Bool :=
  if goStartsWith mx (str ".") then
    match goIndexOf mxHost '.' with
    | some i => some (decide (mxHost.drop i = mx))
    | none => none
  else some (decide (mx = mxHost))

/-- Embedding of `mxHasMatch(declaredMXs, mxHost)` from QuerySts.go. -/
def mxHasMatch : List (List Char) → List Char → Option Bool
  | [], _ => some false
  | mx :: rest, mxHost =>
    match mxMatchOne mx mxHost with
    | none => none
    | some true => some true
    | some false => mxHasMatch rest mxHost

/-- One validation message printed by `main` in QuerySts.go, abstracted
from its formatting string. -/
inductive Finding where
  /-- "Error the policy resource must contain a version field" -/
  | missingVersion
  /-- "Error version must equal 'STSv1'" -/
  | badVersion
  /-- "Error mode must be one of 'report', 'enforce', 'none' but was %s" -/
  | badMode (mode : List Char)
  /-- "Error policy resource should have a 'max_age' field." -/
  | missingMaxAge
  /-- "Error unknown key in policy [%s]" -/
  | unknownKey (key : List Char)
  /-- "Error undefined MX record [%s]" -/
  | undefinedMX (host : List Char)
  deriving DecidableEq

/-- The unknown-key loop of `main`: one finding per key of `allKeys`
that is none of `""`, `version`, `mode`, `max_age`, `mx`. -/
def unknownKeyLoop : List (List Char) → List Finding
  | [] => []
  | k :: rest =>
    if k ≠ [] ∧ k ≠ str "version" ∧ k ≠ str "mode" ∧ k ≠ str "max_age" ∧
        k ≠ str "mx" then
      Finding.unknownKey k :: unknownKeyLoop rest
    else unknownKeyLoop rest

/-- The MX cross-check loop of `main`: one finding per nonempty resolved
record that no declared pattern matches; `none` propagates a panic from
`mxHasMatch`. -/
def mxCheckLoop (mxs : List (List Char)) : List (List Char) → Option (List Finding)
  | [] => some []
  | record :: rest =>
    if record ≠ [] then
      match mxHasMatch mxs record with
      | none => none
      | some true => mxCheckLoop mxs rest
      | some false =>
        match mxCheckLoop mxs rest with
        | none => none
        | some fs => some (Finding.undefinedMX record :: fs)
    else mxCheckLoop mxs rest

/-- The policy-validation section of `main` in QuerySts.go (lines
56-88), as a function from the split policy rows and the resolved MX
records to the sequence of findings printed, in print order.  `none`
models a run that panics inside `valueForKey`, `valuesForKey` or
`mxHasMatch` before completing. -/
def validate (rows mxRecords : List (List Char)) : Option (List Finding) :=
  let fs1 : List Finding :=
    if hasKey rows (str "version") then [] else [Finding.missingVersion]
  match valueForKey rows (str "version") with
  | none => none
  | some ver =>
    let fs2 := fs1 ++ (if ver = str "STSv1" then [] else [Finding.badVersion])
    match valueForKey rows (str "mode") with
    | none => none
    | some mode =>
      let fs3 := fs2 ++
        (if mode ≠ str "report" ∧ mode ≠ str "enforce" ∧ mode ≠ str "none" then
          [Finding.badMode mode]
         else [])
      let fs4 := fs3 ++
        (if hasKey rows (str "max_age") then [] else [Finding.missingMaxAge])
      let fs5 := fs4 ++ unknownKeyLoop (allKeys rows)
      match valuesForKey rows (str "mx") with
      | none => none
      | some mxs =>
        match mxCheckLoop mxs mxRecords with
        | none => none
        | some fs6 => some (fs5 ++ fs6)

/-- The findings of `main`'s version-presence check (QuerySts.go lines
56-58), as one group. -/
def versionPresentFindings (rows : List (List Char)) : List Finding :=
  if hasKey rows (str "version") then [] else [Finding.missingVersion]

/-- The findings of `main`'s version-value check (lines 60-62) for the
value `ver` returned by `valueForKey`. -/
def versionValueFindings (ver : List Char) : List Finding :=
  if ver = str "STSv1" then [] else [Finding.badVersion]

/-- The findings of `main`'s mode check (lines 64-67) for the value
`mode` returned by `valueForKey`. -/
def modeValueFindings (mode : List Char) : List Finding :=
  if mode ≠ str "report" ∧ mode ≠ str "enforce" ∧ mode ≠ str "none" then
    [Finding.badMode mode]
  else []

/-- The findings of `main`'s max_age-presence check (lines 69-71). -/
def maxAgeFindings (rows : List (List Char)) : List Finding :=
  if hasKey rows (str "max_age") then [] else [Finding.missingMaxAge]

/-- Following the spec's words: one finding per key that is not one of
the recognized key names, in key order (to be compared with the loop
`unknownKeyLoop` of the code). -/
def unknownKeyFindingsSpec (keys : List (List Char)) : List Finding :=
  (keys.filter fun k =>
    decide (k ≠ [] ∧ k ≠ str "version" ∧ k ≠ str "mode" ∧
      k ≠ str "max_age" ∧ k ≠ str "mx")).map Finding.unknownKey

/-- Following the spec's words: one "undefined MX record" finding per
nonempty resolved host no declared pattern matches, in resolved order
(to be compared with the loop `mxCheckLoop` of the code). -/
def mxFindingsSpec (mxs records : List (List Char)) : List Finding :=
  (records.filter fun r =>
    decide (r ≠ [] ∧ mxHasMatch mxs r = some false)).map Finding.undefinedMX

/-- Following the spec's words: the trimmed portion of a line after its
first `:` (up to the next `:`, as the code's `fields[1]` takes it). -/
def lineValue (line : List Char) : List Char :=
  goTrimSpace (((goSplit line ':').get? 1).getD [])

theorem goSplit_ne_nil (s : List Char) (sep : Char) : goSplit s sep ≠ [] := by
  cases s with
  | nil => simp [goSplit]
  | cons c rest =>
    simp only [goSplit]
    split
    · simp
    · split
      · simp
      · simp

theorem goSplit_get_zero (s : List Char) (sep : Char) :
    (goSplit s sep).get? 0 = some (s.takeWhile fun c => decide (c ≠ sep)) := by
  induction s with
  | nil => rfl
  | cons c rest ih =>
    simp only [goSplit]
    by_cases hc : c = sep
    · simp [hc]
    · rw [if_neg hc]
      cases hsp : goSplit rest sep with
      | nil => exact absurd hsp (goSplit_ne_nil rest sep)
      | cons f fs =>
        rw [hsp] at ih
        simp only [List.get?_cons_zero, Option.some.injEq] at ih
        simp [List.takeWhile_cons, hc, ih]

theorem goSplit_get_one (s : List Char) (sep : Char) (i : Nat)
    (h : goIndexOf s sep = some i) :
    (goSplit s sep).get? 1 =
      some ((s.drop (i + 1)).takeWhile fun c => decide (c ≠ sep)) := by
  induction s generalizing i with
  | nil => simp [goIndexOf] at h
  | cons c rest ih =>
    simp only [goIndexOf] at h
    by_cases hc : c = sep
    · rw [if_pos hc] at h
      injection h with h
      subst h
      simp only [goSplit, if_pos hc, List.get?_cons_succ, List.drop_succ_cons,
        List.drop_zero]
      exact goSplit_get_zero rest sep
    · rw [if_neg hc] at h
      cases hj : goIndexOf rest sep with
      | none => rw [hj] at h; simp at h
      | some j =>
        rw [hj] at h
        rw [Option.map_some'] at h
        injection h with h
        subst h
        simp only [goSplit, if_neg hc]
        cases hsp : goSplit rest sep with
        | nil => exact absurd hsp (goSplit_ne_nil rest sep)
        | cons f fs =>
          have := ih j hj
          rw [hsp] at this
          simpa using this

theorem valueForKey_of_no_match (rows : List (List Char)) (key : List Char)
    (h : hasKey rows key = false) : valueForKey rows key = some [] := by
  induction rows with
  | nil => rfl
  | cons line rest ih =>
    unfold hasKey at h
    unfold valueForKey
    by_cases hs : goStartsWith line key = true
    · rw [if_pos hs] at h
      exact absurd h (by simp)
    · rw [if_neg hs] at h ⊢
      exact ih h

theorem hasKey_iff_exists (rows : List (List Char)) (key : List Char) :
    hasKey rows key = true ↔ ∃ line ∈ rows, goStartsWith line key = true := by
  induction rows with
  | nil => simp [hasKey]
  | cons line rest ih =>
    by_cases hs : goStartsWith line key = true
    · simp [hasKey, hs]
    · simp [hasKey, hs, ih]

theorem unknownKeyLoop_eq_spec (keys : List (List Char)) :
    unknownKeyLoop keys = unknownKeyFindingsSpec keys := by
  induction keys with
  | nil => rfl
  | cons k rest ih =>
    by_cases hc : k ≠ [] ∧ k ≠ str "version" ∧ k ≠ str "mode" ∧
        k ≠ str "max_age" ∧ k ≠ str "mx"
    · simp [unknownKeyLoop, unknownKeyFindingsSpec, List.filter_cons, hc, ih,
        unknownKeyFindingsSpec]
    · simp [unknownKeyLoop, unknownKeyFindingsSpec, List.filter_cons, hc, ih,
        unknownKeyFindingsSpec]

theorem mxCheckLoop_eq_spec (mxs records : List (List Char))
    (fs : List Finding) (h : mxCheckLoop mxs records = some fs) :
    fs = mxFindingsSpec mxs records := by
  induction records generalizing fs with
  | nil =>
    unfold mxCheckLoop at h
    injection h with h
    simp [← h, mxFindingsSpec]
  | cons r rest ih =>
    unfold mxCheckLoop at h
    by_cases hr : r ≠ []
    · rw [if_pos hr] at h
      cases hm : mxHasMatch mxs r with
      | none => rw [hm] at h; exact absurd h (by simp)
      | some b =>
        rw [hm] at h
        cases b with
        | true =>
          simp only at h
          have hcond : ¬(r ≠ [] ∧ mxHasMatch mxs r = some false) := by
            rintro ⟨-, hf⟩
            rw [hm] at hf
            exact absurd hf (by simp)
          simp [mxFindingsSpec, List.filter_cons, hcond]
          simpa [mxFindingsSpec] using ih fs h
        | false =>
          simp only at h
          cases hrec : mxCheckLoop mxs rest with
          | none => rw [hrec] at h; exact absurd h (by simp)
          | some fs0 =>
            rw [hrec] at h
            injection h with h
            have hcond : r ≠ [] ∧ mxHasMatch mxs r = some false := ⟨hr, hm⟩
            simp [← h, mxFindingsSpec, List.filter_cons, hcond]
            simpa [mxFindingsSpec] using ih fs0 hrec
    · rw [if_neg hr] at h
      have hr' : r = [] := by
        by_contra hne
        exact hr hne
      have hcond : ¬(r ≠ [] ∧ mxHasMatch mxs r = some false) := by
        rintro ⟨hne, -⟩
        exact hne hr'
      rw [show mxFindingsSpec mxs (r :: rest) = mxFindingsSpec mxs rest from by
        simp [mxFindingsSpec, List.filter_cons, hcond]]
      exact ih fs h

theorem validate_eq_parts (rows mx : List (List Char)) (ver mode : List Char)
    (mxs : List (List Char)) (fs6 : List Finding)
    (hv : valueForKey rows (str "version") = some ver)
    (hm : valueForKey rows (str "mode") = some mode)
    (hx : valuesForKey rows (str "mx") = some mxs)
    (hl : mxCheckLoop mxs mx = some fs6) :
    validate rows mx = some
      (versionPresentFindings rows ++ versionValueFindings ver ++
       modeValueFindings mode ++ maxAgeFindings rows ++
       unknownKeyLoop (allKeys rows) ++ fs6) := by
  simp only [validate, hv, hm, hx, hl, versionPresentFindings,
    versionValueFindings, modeValueFindings, maxAgeFindings]

theorem validate_eq_some_elim (rows mx : List (List Char)) (fs : List Finding)
    (h : validate rows mx = some fs) :
    ∃ ver mode mxs fs6,
      valueForKey rows (str "version") = some ver ∧
      valueForKey rows (str "mode") = some mode ∧
      valuesForKey rows (str "mx") = some mxs ∧
      mxCheckLoop mxs mx = some fs6 ∧
      fs = versionPresentFindings rows ++ versionValueFindings ver ++
           modeValueFindings mode ++ maxAgeFindings rows ++
           unknownKeyLoop (allKeys rows) ++ fs6 := by
  simp only [validate] at h
  split at h
  next => exact absurd h (by simp)
  next ver hv =>
    split at h
    next => exact absurd h (by simp)
    next mode hm =>
      split at h
      next => exact absurd h (by simp)
      next mxs hx =>
        split at h
        next => exact absurd h (by simp)
        next fs6 hl =>
          injection h with h
          refine ⟨ver, mode, mxs, fs6, hv, hm, hx, hl, ?_⟩
          rw [← h]
          simp only [versionPresentFindings, versionValueFindings,
            modeValueFindings, maxAgeFindings]

theorem allKeysAux_eq_spec (rows : List (List Char)) :
    allKeysAux rows =
      (rows.map extractedKey).filter (fun k => decide (k ≠ [])) := by
  induction rows with
  | nil => rfl
  | cons line rest ih =>
    by_cases hk : extractedKey line ≠ []
    · simp [allKeysAux, hk, ih, List.filter_cons]
    · simp [allKeysAux, hk, ih, List.filter_cons]

theorem valuesForKeyAux_eq_spec (rows : List (List Char)) (key : List Char)
    (hcol : ∀ line ∈ rows, goStartsWith line key = true →
      (goIndexOf line ':').isSome = true) :
    valuesForKeyAux rows key =
      some ((rows.filter fun l => goStartsWith l key).map lineValue) := by
  induction rows with
  | nil => rfl
  | cons line rest ih =>
    unfold valuesForKeyAux
    have ihrec := ih (fun l hl hsl => hcol l (by simp [hl]) hsl)
    by_cases hs : goStartsWith line key = true
    · rw [if_pos hs]
      have hidx := hcol line (by simp) hs
      obtain ⟨i, hi⟩ := Option.isSome_iff_exists.mp hidx
      have h1 := goSplit_get_one line ':' i hi
      rw [h1, ihrec]
      simp [List.filter_cons, hs, lineValue, ← List.get?_eq_getElem?, h1]
    · rw [if_neg hs, ihrec]
      simp [List.filter_cons, hs]

theorem versionFinding_notMem_tail (x : Finding)
    (hx : x = Finding.missingVersion ∨ x = Finding.badVersion)
    (mode : List Char) (rows mxs mx : List (List Char)) (fs6 : List Finding)
    (hl : mxCheckLoop mxs mx = some fs6) :
    x ∉ modeValueFindings mode ∧ x ∉ maxAgeFindings rows ∧
    x ∉ unknownKeyLoop (allKeys rows) ∧ x ∉ fs6 := by
  have h6 : fs6 = mxFindingsSpec mxs mx := mxCheckLoop_eq_spec mxs mx fs6 hl
  rcases hx with hx | hx <;> subst hx <;>
    refine ⟨?_, ?_, ?_, ?_⟩ <;>
    first
      | (unfold modeValueFindings; split <;> simp)
      | (unfold maxAgeFindings; split <;> simp)
      | (rw [unknownKeyLoop_eq_spec]; simp [unknownKeyFindingsSpec])
      | (rw [h6]; simp [mxFindingsSpec])

/-- C1: the claim says `valueForKey` and `valuesForKey` complete
normally on every input; in fact, on the policy row "version" (a line
that begins with the queried key "version" but contains no ':'), both
functions reach the out-of-range access `fields[1]` and the Go program
panics (modelled by `none`). -/
theorem C1_colonless_line_panics :
    valueForKey [str "version"] (str "version") = none ∧
    valuesForKey [str "version"] (str "version") = none := by decide

/-- C2: a declared pattern beginning with '.' matches a resolved host
iff the host's suffix starting at the host's first '.' equals the
pattern exactly; a pattern with no leading '.' matches only by exact
equality; pattern ".example.com" matches host "mail.example.com" but
not "a.mail.example.com". -/
theorem C2_wildcard_match_rule (pat host : List Char) :
    (goStartsWith pat (str ".") = true →
      ∀ i, goIndexOf host '.' = some i →
        (mxHasMatch [pat] host = some true ↔ host.drop i = pat)) ∧
    (goStartsWith pat (str ".") = false →
      (mxHasMatch [pat] host = some true ↔ pat = host)) ∧
    mxHasMatch [str ".example.com"] (str "mail.example.com") = some true ∧
    mxHasMatch [str ".example.com"] (str "a.mail.example.com") = some false := by
  refine ⟨?_, ?_, by decide, by decide⟩
  · intro hw i hi
    by_cases hd : host.drop i = pat
    · simp [mxHasMatch, mxMatchOne, hw, hi, hd]
    · simp [mxHasMatch, mxMatchOne, hw, hi, hd]
  · intro hw
    by_cases hd : pat = host
    · subst hd
      simp [mxHasMatch, mxMatchOne, hw]
    · simp [mxHasMatch, mxMatchOne, hw, hd]

/-- Witness for C2 at pattern ".example.com", host "mail.example.com"
(whose first '.' is at index 4). -/
theorem C2_wildcard_match_rule_witness :
    mxHasMatch [str ".example.com"] (str "mail.example.com") = some true ↔
      (str "mail.example.com").drop 4 = str ".example.com" :=
  (C2_wildcard_match_rule (str ".example.com") (str "mail.example.com")).1
    (by decide) 4 (by decide)

/-- C3 counterexample: on the policy ["mode: enforce"], which has no
line starting with "version", validation emits the missing-version
finding AND the version-must-equal-'STSv1' finding, contradicting the
claim that no other version-related finding is produced. -/
theorem C3_missing_version_counterexample :
    hasKey [str "mode: enforce"] (str "version") = false ∧
    validate [str "mode: enforce"] [] =
      some [Finding.missingVersion, Finding.badVersion,
        Finding.missingMaxAge] ∧
    Finding.badVersion ∈
      [Finding.missingVersion, Finding.badVersion, Finding.missingMaxAge] := by
  decide

/-- C3 amended: for a policy with no line starting with "version",
every completed validation emits the missing-version finding exactly
once and the version-must-equal-'STSv1' finding exactly once (the
version comparison sees the empty string returned by `valueForKey`);
no further version-related findings exist. -/
theorem C3_missing_version_amended (rows mx : List (List Char))
    (fs : List Finding) (hk : hasKey rows (str "version") = false)
    (h : validate rows mx = some fs) :
    fs.count Finding.missingVersion = 1 ∧
    fs.count Finding.badVersion = 1 := by
  obtain ⟨ver, mode, mxs, fs6, hv, hm, hx, hl, hfs⟩ :=
    validate_eq_some_elim rows mx fs h
  have hver : ver = [] := by
    have h0 := valueForKey_of_no_match rows (str "version") hk
    rw [h0] at hv
    exact (Option.some.inj hv).symm
  subst hver
  have h1 : versionPresentFindings rows = [Finding.missingVersion] := by
    unfold versionPresentFindings
    rw [if_neg (by simp [hk])]
  have h2 : versionValueFindings [] = [Finding.badVersion] := by
    unfold versionValueFindings
    rw [if_neg (by decide)]
  have hmv := versionFinding_notMem_tail Finding.missingVersion (Or.inl rfl)
    mode rows mxs mx fs6 hl
  have hbv := versionFinding_notMem_tail Finding.badVersion (Or.inr rfl)
    mode rows mxs mx fs6 hl
  subst hfs
  rw [h1, h2]
  constructor
  · simp [List.count_append, List.count_eq_zero.mpr hmv.1,
      List.count_eq_zero.mpr hmv.2.1, List.count_eq_zero.mpr hmv.2.2.1,
      List.count_eq_zero.mpr hmv.2.2.2]
  · simp [List.count_append, List.count_eq_zero.mpr hbv.1,
      List.count_eq_zero.mpr hbv.2.1, List.count_eq_zero.mpr hbv.2.2.1,
      List.count_eq_zero.mpr hbv.2.2.2]

/-- Witness for C3 amended at the policy ["mode: enforce"] with no
resolved MX records. -/
theorem C3_missing_version_amended_witness :
    List.count Finding.missingVersion
      [Finding.missingVersion, Finding.badVersion, Finding.missingMaxAge]
        = 1 ∧
    List.count Finding.badVersion
      [Finding.missingVersion, Finding.badVersion, Finding.missingMaxAge]
        = 1 :=
  C3_missing_version_amended [str "mode: enforce"] []
    [Finding.missingVersion, Finding.badVersion, Finding.missingMaxAge]
    (by decide) (by decide)

/-- C4 counterexample: for the line "mx: a:b" (whose value contains a
':'), `valueForKey` returns "a" — the trimmed segment between the first
and second ':' — and not the whole trimmed remainder "a:b" after the
first ':' that the claim predicts. -/
theorem C4_second_colon_counterexample :
    valueForKey [str "mx: a:b"] (str "mx") = some (str "a") ∧
    goTrimSpace ((str "mx: a:b").drop 3) = str "a:b" ∧
    str "a" ≠ str "a:b" := by decide

/-- C4 amended: for every line that starts with the queried key and
contains a ':' (first occurrence at index i), `valueForKey` returns the
trimmed segment of the line after the first ':' UP TO the next ':' or
the end of the line (Go's `fields[1]` of the split on ':'), not the
whole remainder. -/
theorem C4_value_amended (line key : List Char) (i : Nat)
    (hs : goStartsWith line key = true) (hi : goIndexOf line ':' = some i) :
    valueForKey [line] key =
      some (goTrimSpace
        ((line.drop (i + 1)).takeWhile fun c => decide (c ≠ ':'))) := by
  unfold valueForKey
  rw [if_pos hs, goSplit_get_one line ':' i hi]

/-- Witness for C4 amended at the line "mx: a:b" and key "mx". -/
theorem C4_value_amended_witness :
    valueForKey [str "mx: a:b"] (str "mx") =
      some (goTrimSpace
        (((str "mx: a:b").drop (2 + 1)).takeWhile fun c => decide (c ≠ ':'))) :=
  C4_value_amended (str "mx: a:b") (str "mx") 2 (by decide) (by decide)

/-- C5: whenever the validation section completes, its findings are
exactly the concatenation, in this fixed order, of: the missing-version
group, the version-value group, the mode group, the missing-max_age
group, one unknown-key finding per unknown key in allKeys order, and
one undefined-MX finding per unmatched nonempty resolved host in
resolved order — each group present regardless of the earlier ones
(no short-circuiting). -/
theorem C5_findings_order (rows mx : List (List Char)) (ver mode : List Char)
    (mxs : List (List Char)) (fs6 : List Finding)
    (hv : valueForKey rows (str "version") = some ver)
    (hm : valueForKey rows (str "mode") = some mode)
    (hx : valuesForKey rows (str "mx") = some mxs)
    (hl : mxCheckLoop mxs mx = some fs6) :
    validate rows mx = some
      (versionPresentFindings rows ++ versionValueFindings ver ++
       modeValueFindings mode ++ maxAgeFindings rows ++
       unknownKeyFindingsSpec (allKeys rows) ++ mxFindingsSpec mxs mx) := by
  rw [validate_eq_parts rows mx ver mode mxs fs6 hv hm hx hl,
    unknownKeyLoop_eq_spec, mxCheckLoop_eq_spec mxs mx fs6 hl]

/-- Witness for C5 at the policy ["foo: bar"] with no resolved MX
records: all six groups laid out in order. -/
theorem C5_findings_order_witness :
    validate [str "foo: bar"] [] =
      some [Finding.missingVersion, Finding.badVersion, Finding.badMode [],
        Finding.missingMaxAge, Finding.unknownKey (str "foo")] := by
  have h := C5_findings_order [str "foo: bar"] [] [] [] [[]] []
    (by decide) (by decide) (by decide) (by decide)
  exact h.trans (by decide)

/-- C6: for resolved MX hosts [mx1.example.com, mx2.example.com] and a
policy declaring only mx1.example.com, validation reports exactly one
finding — "undefined MX record" naming mx2.example.com. -/
theorem C6_cross_check_completeness :
    validate
      [str "version: STSv1", str "mode: enforce", str "max_age: 86400",
       str "mx: mx1.example.com"]
      [str "mx1.example.com", str "mx2.example.com"] =
      some [Finding.undefinedMX (str "mx2.example.com")] := by decide

/-- C7: `hasKey` is true iff some raw untrimmed line has the key as a
prefix; on the input ["modex: mode"], whose extracted key is "modex"
(not "mode") and whose value "mode" begins with the reserved key name
"mode", `hasKey` for "mode" is still true. -/
theorem C7_hasKey_raw_line_semantics (rows : List (List Char))
    (key : List Char) :
    (hasKey rows key = true ↔
      ∃ line ∈ rows, goStartsWith line key = true) ∧
    hasKey [str "modex: mode"] (str "mode") = true ∧
    extractedKey (str "modex: mode") ≠ str "mode" ∧
    valueForKey [str "modex: mode"] (str "modex") = some (str "mode") ∧
    goStartsWith (str "mode") (str "mode") = true :=
  ⟨hasKey_iff_exists rows key, by decide, by decide, by decide, by decide⟩

/-- C8 counterexample: because both `allKeys` and `valuesForKey` start
from `make([]string, 1, 4)`, each returns one additional empty-string
element ahead of the claimed elements. -/
theorem C8_sentinel_counterexample :
    allKeys [str "version: STSv1"] = [[], str "version"] ∧
    allKeys [str "version: STSv1"] ≠ [str "version"] ∧
    valuesForKey [str "mx: mx1.example.com"] (str "mx") =
      some [[], str "mx1.example.com"] ∧
    valuesForKey [str "mx: mx1.example.com"] (str "mx") ≠
      some [str "mx1.example.com"] := by decide

/-- C8 amended: `allKeys` returns one leading empty string followed by
exactly the extracted, trimmed, nonempty keys of all lines in document
order; `valuesForKey` (when every matching line has a ':') returns one
leading empty string followed by exactly the values of the lines whose
raw text starts with the key, in document order. -/
theorem C8_collections_amended (rows : List (List Char)) (key : List Char)
    (hcol : ∀ line ∈ rows, goStartsWith line key = true →
      (goIndexOf line ':').isSome = true) :
    allKeys rows =
      [] :: (rows.map extractedKey).filter (fun k => decide (k ≠ [])) ∧
    valuesForKey rows key =
      some ([] :: (rows.filter fun l => goStartsWith l key).map lineValue) := by
  constructor
  · rw [allKeys, allKeysAux_eq_spec]
  · rw [valuesForKey, valuesForKeyAux_eq_spec rows key hcol]
    rfl

/-- Witness for C8 amended at the policy ["mx: mx1.example.com"] and
key "mx". -/
theorem C8_collections_amended_witness :
    allKeys [str "mx: mx1.example.com"] =
      [] :: ([str "mx: mx1.example.com"].map extractedKey).filter
        (fun k => decide (k ≠ [])) ∧
    valuesForKey [str "mx: mx1.example.com"] (str "mx") =
      some ([] :: ([str "mx: mx1.example.com"].filter
        fun l => goStartsWith l (str "mx")).map lineValue) :=
  C8_collections_amended [str "mx: mx1.example.com"] (str "mx") (by decide)

/-- C9: `mxHasMatch` completes normally whenever the host contains a
'.' or no declared pattern begins with '.'; without that precondition
the out-of-range slice is reached: on the wildcard pattern
".example.com" with the dot-free host "localhost" the code panics
(modelled by `none`). -/
theorem C9_mxHasMatch_totality (mxs : List (List Char)) (host : List Char) :
    ((goIndexOf host '.').isSome = true ∨
        (∀ mx ∈ mxs, goStartsWith mx (str ".") = false) →
      (mxHasMatch mxs host).isSome = true) ∧
    mxHasMatch [str ".example.com"] (str "localhost") = none := by
  refine ⟨?_, by decide⟩
  intro h
  induction mxs with
  | nil => simp [mxHasMatch]
  | cons mx rest ih =>
    have hone : (mxMatchOne mx host).isSome = true := by
      rcases h with hdot | hall
      · unfold mxMatchOne
        split
        · obtain ⟨i, hi⟩ := Option.isSome_iff_exists.mp hdot
          rw [hi]
          simp
        · simp
      · unfold mxMatchOne
        rw [if_neg (by simp [hall mx (by simp)])]
        simp
    obtain ⟨b, hb⟩ := Option.isSome_iff_exists.mp hone
    have hrec : (goIndexOf host '.').isSome = true ∨
        ∀ m ∈ rest, goStartsWith m (str ".") = false := by
      rcases h with hdot | hall
      · exact Or.inl hdot
      · exact Or.inr fun m hm => hall m (by simp [hm])
    unfold mxHasMatch
    rw [hb]
    cases b
    · exact ih hrec
    · simp

/-- Witness for C9 at the pattern list ["mx1.example.com"] and host
"mail.example.com" (which contains a '.'). -/
theorem C9_mxHasMatch_totality_witness :
    (mxHasMatch [str "mx1.example.com"] (str "mail.example.com")).isSome
      = true :=
  (C9_mxHasMatch_totality [str "mx1.example.com"]
    (str "mail.example.com")).1 (Or.inl (by decide))

/-- C10: when no line starts with the queried key, `valueForKey`
returns the empty string, not an error; hence a completed validation of
a policy with no "mode"-prefixed line emits the invalid-mode finding
naming the empty value, and one with no "version"-prefixed line emits
the version-comparison finding (the check sees the empty string). -/
theorem C10_missing_key_defaults (rows mx : List (List Char))
    (key : List Char) (fs : List Finding) :
    (hasKey rows key = false → valueForKey rows key = some []) ∧
    (hasKey rows (str "mode") = false → validate rows mx = some fs →
      Finding.badMode [] ∈ fs) ∧
    (hasKey rows (str "version") = false → validate rows mx = some fs →
      Finding.badVersion ∈ fs) := by
  refine ⟨valueForKey_of_no_match rows key, ?_, ?_⟩
  · intro hk h
    obtain ⟨ver, mode, mxs, fs6, hv, hm, hx, hl, hfs⟩ :=
      validate_eq_some_elim rows mx fs h
    have hmode : mode = [] := by
      have h0 := valueForKey_of_no_match rows (str "mode") hk
      rw [h0] at hm
      exact (Option.some.inj hm).symm
    subst hmode
    subst hfs
    have h3 : modeValueFindings [] = [Finding.badMode []] := by
      unfold modeValueFindings
      rw [if_pos (by decide)]
    simp [h3, List.mem_append]
  · intro hk h
    obtain ⟨ver, mode, mxs, fs6, hv, hm, hx, hl, hfs⟩ :=
      validate_eq_some_elim rows mx fs h
    have hver : ver = [] := by
      have h0 := valueForKey_of_no_match rows (str "version") hk
      rw [h0] at hv
      exact (Option.some.inj hv).symm
    subst hver
    subst hfs
    have h2 : versionValueFindings [] = [Finding.badVersion] := by
      unfold versionValueFindings
      rw [if_neg (by decide)]
    simp [h2, List.mem_append]

/-- Witness for C10 at the policy ["foo: bar"] (no "mode" line) with no
resolved MX records. -/
theorem C10_missing_key_defaults_witness :
    Finding.badMode [] ∈
      [Finding.missingVersion, Finding.badVersion, Finding.badMode [],
        Finding.missingMaxAge, Finding.unknownKey (str "foo")] :=
  (C10_missing_key_defaults [str "foo: bar"] [] (str "mode")
    [Finding.missingVersion, Finding.badVersion, Finding.badMode [],
      Finding.missingMaxAge, Finding.unknownKey (str "foo")]).2.1
    (by decide) (by decide)

end StrictMTA
